import Mathlib

/-!
# Dewey — verification of the deferred command processing pipeline

A shallow embedding of the Dewey Discord bot's core pipeline
(`src/discord/handler.ts`, the Lambda entry file, `src/llm/claude.ts`):
the chunk splitter `splitContent`, the title resolver
(`parseTitles` / `simpleParseTitle` / `isValidSimpleParse` and the
LLM `extractTitles` fallback), the batch generator
`generateBatchSynopses`, and the deferred `synopsis-batch` orchestration
(`processDeferred`, `sendFollowUp`, `sendToThread`, `sendBatchResults`,
`sendBatchToThread`), with their delivery effects modelled as an explicit
event trace.  External calls (the LLM provider, the Discord transport,
thread creation) are oracles supplied as parameters.
-/

namespace Dewey

/-! ## JS strings, trimming, and the chunk splitter (`splitContent`) -/

/-- The whitespace characters removed by JavaScript's `String.prototype.trim`
(the ASCII white space and line terminators, plus NBSP; the remaining Unicode
space separators JS also trims never occur in the inputs treated here). -/
def isJsWhitespace (c : Char) : Bool :=
  c = ' ' || c = '\t' || c = '\n' || c = '\r' || c = '\x0b' || c = '\x0c' || c = ' '

/-- Drop JS whitespace from the front of a character list (`trimStart`). -/
def trimLeftChars (l : List Char) : List Char :=
  l.dropWhile isJsWhitespace

/-- Drop JS whitespace from the back of a character list (`trimEnd`). -/
def trimRightChars (l : List Char) : List Char :=
  (l.reverse.dropWhile isJsWhitespace).reverse

/-- JavaScript `String.prototype.trim` on a character list. -/
def jsTrim (l : List Char) : List Char :=
  trimLeftChars (trimRightChars l)

/-- JavaScript `String.prototype.trim`. -/
def jsTrimStr (s : String) : String :=
  String.mk (jsTrim s.toList)

/-- Whether the pattern `pat` occurs in `r` starting at index `i`
(JS `String.prototype.lastIndexOf` reports such start indices). -/
def occursAt (pat r : List Char) (i : Nat) : Bool :=
  pat.isPrefixOf (r.drop i)

/-- JS `r.lastIndexOf(pat, fromIdx)`: the largest start index `≤ fromIdx`
at which `pat` occurs in `r`, as an `Option` (JS returns `-1` for none). -/
def lastIndexOfFrom (pat r : List Char) (fromIdx : Nat) : Option Nat :=
  (List.range (fromIdx + 1)).reverse.find? (occursAt pat r)

/-- The guard `splitContent` applies to a candidate split point: found, and
not below the midpoint (JS `splitIndex === -1 || splitIndex < maxLength / 2`
rejects; for natural `i` and `maxLength`, `i < maxLength / 2` over JS exact
division is `2 * i < maxLength`). -/
def acceptableSplit (maxLength : Nat) : Option Nat → Bool
  | none => false
  | some i => decide (maxLength ≤ 2 * i)

/-- The split-point search of `splitContent` (handler entry file, the body of
the `while` loop): last paragraph break (`"\n\n"`) at or before `maxLength`,
else last line break, else last space — each rejected when absent or below
the midpoint — else a hard cut at `maxLength`. -/
def chooseSplitIndex (maxLength : Nat) (r : List Char) : Nat :=
  let para := lastIndexOfFrom ['\n', '\n'] r maxLength
  if acceptableSplit maxLength para then para.getD 0
  else
    let line := lastIndexOfFrom ['\n'] r maxLength
    if acceptableSplit maxLength line then line.getD 0
    else
      let sp := lastIndexOfFrom [' '] r maxLength
      if acceptableSplit maxLength sp then sp.getD 0
      else maxLength

/-- The `while (remaining.length > 0)` loop of `splitContent`, with explicit
fuel (the JS loop terminates for `maxLength ≥ 1` because every iteration
strictly shortens `remaining`; fuel `length + 1` is enough, as proved below). -/
def splitLoop (maxLength : Nat) : Nat → List Char → List (List Char)
  | 0, _ => []
  | fuel + 1, r =>
    if r.isEmpty then []
    else if r.length ≤ maxLength then [r]
    else
      let si := chooseSplitIndex maxLength r
      jsTrim (r.take si) :: splitLoop maxLength fuel (jsTrim (r.drop si))

/-- `splitContent(content, maxLength = 1900)`: split text into chunks that fit
Discord's limit, preferring paragraph / line / space boundaries. -/
def splitContent (content : String) (maxLength : Nat := 1900) : List String :=
  if content.length ≤ maxLength then [content]
  else (splitLoop maxLength (content.toList.length + 1) content.toList).map String.mk

/-! ## Title resolver: the simple parse (`simpleParseTitle`, `isValidSimpleParse`) -/

/-- JS `String.prototype.split` with a single-character separator. -/
def splitOnCharAux (sep : Char) : List Char → List Char → List (List Char)
  | [], acc => [acc.reverse]
  | c :: rest, acc =>
    if c = sep then acc.reverse :: splitOnCharAux sep rest []
    else splitOnCharAux sep rest (c :: acc)

/-- JS `s.split(sep)` for a one-character `sep`. -/
def splitOnChar (sep : Char) (l : List Char) : List (List Char) :=
  splitOnCharAux sep l []

/-- `simpleParseTitle` (handler.ts): split by comma, else by newline, trimming
each piece and dropping empty ones; else the whole trimmed input as one title. -/
def simpleParseTitle (input : String) : List String :=
  if input.toList.contains ',' then
    (((splitOnChar ',' input.toList).map (fun p => String.mk (jsTrim p))).filter
      (fun t => t.length != 0))
  else if input.toList.contains '\n' then
    (((splitOnChar '\n' input.toList).map (fun p => String.mk (jsTrim p))).filter
      (fun t => t.length != 0))
  else [jsTrimStr input]

/-- A JS `\w` word character, `[A-Za-z0-9_]`. -/
def isWordChar (c : Char) : Bool :=
  c.isAlphanum || c == '_'

/-- Case-insensitive comparison of a word against the start of a list
(the JS regexes involved carry the `i` flag). -/
def ciStartsWith : List Char → List Char → Bool
  | [], _ => true
  | _ :: _, [] => false
  | a :: as, b :: bs => (a.toLower == b.toLower) && ciStartsWith as bs

/-- A `\b` boundary on the side of a (letter-initial, letter-final) word:
holds at the ends of the string and against any non-word character. -/
def wordBoundary : Option Char → Bool
  | none => true
  | some c => !isWordChar c

/-- The character just after a `w`-long occurrence that starts `s`, for the
trailing `\b` of the word regexes. -/
def boundaryAfter (w s : List Char) : Bool :=
  match s.drop w.length with
  | [] => true
  | c :: _ => !isWordChar c

/-- `new RegExp("\\b" + w + "\\b", "i").test(s)` for a word `w` made of word
characters: some case-insensitive occurrence of `w` in `s` flanked by
word boundaries.  `prev` is the character before the current position. -/
def hasWordCI (w : List Char) : Option Char → List Char → Bool
  | _, [] => false
  | prev, c :: rest =>
    (wordBoundary prev && ciStartsWith w (c :: rest) && boundaryAfter w (c :: rest))
      || hasWordCI w (some c) rest

/-- `/\b…\b/i.test(title)` on a whole string. -/
def testWordCI (w : String) (s : String) : Bool :=
  hasWordCI w.toList none s.toList

/-- The conversational filler words of `isValidSimpleParse`
(`/\b(we|you|should|talked|about|add|any|others|thinking)\b/i`). -/
def fillerWords : List String :=
  ["we", "you", "should", "talked", "about", "add", "any", "others", "thinking"]

/-- `/[….]$/.test(title)`: the title ends with an ellipsis character or a dot. -/
def endsEllipsisLike (s : String) : Bool :=
  match s.toList.getLast? with
  | some c => c = '…' || c = '.'
  | none => false

/-- The per-title checks inside `isValidSimpleParse`'s loop: too long,
a standalone "or", a conversational filler word, or a trailing
ellipsis-like character each reject the simple parse. -/
def titleLooksValid (title : String) : Bool :=
  if title.length > 100 then false
  else if testWordCI "or" title then false
  else if fillerWords.any (fun w => testWordCI w title) then false
  else if endsEllipsisLike title then false
  else true

/-- `isValidSimpleParse` (handler.ts): a non-empty list all of whose titles
pass the per-title checks. -/
def isValidSimpleParse (titles : List String) : Bool :=
  if titles.length = 0 then false
  else titles.all titleLooksValid

/-! ## Title resolver: the LLM extraction fallback (`ClaudeProvider.extractTitles`) -/

/-- A JSON value, as `JSON.parse` produces (numbers kept as their raw
source text, which suffices here: the pipeline only consumes strings). -/
inductive Json where
  | str (s : String)
  | num (raw : String)
  | bool (b : Bool)
  | null
  | arr (elems : List Json)
  | obj (fields : List (String × Json))

/-- JSON insignificant whitespace. -/
def isJsonWs (c : Char) : Bool :=
  c = ' ' || c = '\t' || c = '\n' || c = '\r'

/-- Skip JSON whitespace. -/
def skipWs (l : List Char) : List Char :=
  l.dropWhile isJsonWs

/-- A hexadecimal digit. -/
def isHexDigitChar (c : Char) : Bool :=
  c.isDigit || ('a' ≤ c && c ≤ 'f') || ('A' ≤ c && c ≤ 'F')

/-- The value of a hexadecimal digit. -/
def hexVal (c : Char) : Nat :=
  if c.isDigit then c.toNat - 48
  else if 'a' ≤ c then c.toNat - 87
  else c.toNat - 55

/-- Four hex digits of a `\uXXXX` escape. -/
def parseHex4 : List Char → Option (Nat × List Char)
  | a :: b :: c :: d :: rest =>
    if isHexDigitChar a && isHexDigitChar b && isHexDigitChar c && isHexDigitChar d then
      some (4096 * hexVal a + 256 * hexVal b + 16 * hexVal c + hexVal d, rest)
    else none
  | _ => none

/-- The body of a JSON string after the opening quote, with escapes
(`\uXXXX` payloads are decoded loosely; no claim depends on them). -/
def parseJsonStringBody (fuel : Nat) (l : List Char) (acc : List Char) :
    Option (String × List Char) :=
  match fuel, l with
  | 0, _ => none
  | _, [] => none
  | fuel + 1, c :: rest =>
    if c = '"' then some (String.mk acc.reverse, rest)
    else if c = '\\' then
      match rest with
      | [] => none
      | e :: rest2 =>
        if e = '"' then parseJsonStringBody fuel rest2 ('"' :: acc)
        else if e = '\\' then parseJsonStringBody fuel rest2 ('\\' :: acc)
        else if e = '/' then parseJsonStringBody fuel rest2 ('/' :: acc)
        else if e = 'b' then parseJsonStringBody fuel rest2 ('\x08' :: acc)
        else if e = 'f' then parseJsonStringBody fuel rest2 ('\x0c' :: acc)
        else if e = 'n' then parseJsonStringBody fuel rest2 ('\n' :: acc)
        else if e = 'r' then parseJsonStringBody fuel rest2 ('\r' :: acc)
        else if e = 't' then parseJsonStringBody fuel rest2 ('\t' :: acc)
        else if e = 'u' then
          match parseHex4 rest2 with
          | some (n, rest3) =>
            parseJsonStringBody fuel rest3 ((Char.ofNat n) :: acc)
          | none => none
        else none
    else if c.toNat < 32 then none
    else parseJsonStringBody fuel rest (c :: acc)

/-- The digits of a JSON number component. -/
def spanDigits (l : List Char) : List Char × List Char :=
  (l.takeWhile Char.isDigit, l.dropWhile Char.isDigit)

/-- A JSON number token (`-?(0|[1-9][0-9]*)(\.[0-9]+)?([eE][+-]?[0-9]+)?`),
returned as its raw text. -/
def parseJsonNumber (l : List Char) : Option (String × List Char) :=
  let (neg, l1) := match l with
    | '-' :: rest => (['-'], rest)
    | _ => (([] : List Char), l)
  match l1 with
  | [] => none
  | c :: _ =>
    if ¬ c.isDigit then none
    else
      let (intPart, l2) := spanDigits l1
      if intPart.length > 1 && intPart.headD '0' = '0' then none
      else
        let (fracPart, l3) := match l2 with
          | '.' :: rest =>
            let (ds, r) := spanDigits rest
            if ds.isEmpty then (none, l2) else (some ('.' :: ds), r)
          | _ => (none, l2)
        match fracPart with
        | none =>
          match l2 with
          | '.' :: _ => none
          | _ =>
            parseJsonExp (neg ++ intPart) l2
        | some fp => parseJsonExp (neg ++ intPart ++ fp) l3
where
  /-- The optional exponent part. -/
  parseJsonExp (acc : List Char) (l : List Char) : Option (String × List Char) :=
    match l with
    | 'e' :: rest | 'E' :: rest =>
      let (sign, r1) := match rest with
        | '+' :: r => (['+'], r)
        | '-' :: r => (['-'], r)
        | _ => (([] : List Char), rest)
      let (ds, r2) := spanDigits r1
      if ds.isEmpty then none
      else some (String.mk (acc ++ ['e'] ++ sign ++ ds), r2)
    | _ => some (String.mk acc, l)

mutual

/-- A JSON value (recursive descent, fuelled). -/
def parseJsonValue : Nat → List Char → Option (Json × List Char)
  | 0, _ => none
  | fuel + 1, l =>
    match skipWs l with
    | [] => none
    | c :: rest =>
      if c = '"' then
        match parseJsonStringBody (rest.length + 1) rest [] with
        | some (s, r) => some (.str s, r)
        | none => none
      else if c = '[' then
        match skipWs rest with
        | ']' :: r => some (.arr [], r)
        | _ =>
          match parseJsonElems fuel rest with
          | some (es, r) => some (.arr es, r)
          | none => none
      else if c = '{' then
        match skipWs rest with
        | '}' :: r => some (.obj [], r)
        | _ =>
          match parseJsonMembers fuel rest with
          | some (fs, r) => some (.obj fs, r)
          | none => none
      else if c = 't' then
        match c :: rest with
        | 't' :: 'r' :: 'u' :: 'e' :: r => some (.bool true, r)
        | _ => none
      else if c = 'f' then
        match c :: rest with
        | 'f' :: 'a' :: 'l' :: 's' :: 'e' :: r => some (.bool false, r)
        | _ => none
      else if c = 'n' then
        match c :: rest with
        | 'n' :: 'u' :: 'l' :: 'l' :: r => some (.null, r)
        | _ => none
      else
        match parseJsonNumber (c :: rest) with
        | some (s, r) => some (.num s, r)
        | none => none

/-- Comma-separated array elements, after `[`. -/
def parseJsonElems : Nat → List Char → Option (List Json × List Char)
  | 0, _ => none
  | fuel + 1, l =>
    match parseJsonValue fuel l with
    | none => none
    | some (v, r) =>
      match skipWs r with
      | ',' :: r2 =>
        match parseJsonElems fuel r2 with
        | some (vs, r3) => some (v :: vs, r3)
        | none => none
      | ']' :: r2 => some ([v], r2)
      | _ => none

/-- Comma-separated object members, after `{`. -/
def parseJsonMembers : Nat → List Char → Option (List (String × Json) × List Char)
  | 0, _ => none
  | fuel + 1, l =>
    match skipWs l with
    | '"' :: rest =>
      match parseJsonStringBody (rest.length + 1) rest [] with
      | none => none
      | some (k, r) =>
        match skipWs r with
        | ':' :: r2 =>
          match parseJsonValue fuel r2 with
          | none => none
          | some (v, r3) =>
            match skipWs r3 with
            | ',' :: r4 =>
              match parseJsonMembers fuel r4 with
              | some (fs, r5) => some ((k, v) :: fs, r5)
              | none => none
            | '}' :: r4 => some ([(k, v)], r4)
            | _ => none
        | _ => none
    | _ => none

end

/-- `JSON.parse`: a complete JSON document, `none` when JS would throw a
`SyntaxError`. -/
def jsonParse (s : String) : Option Json :=
  match parseJsonValue (2 * s.length + 2) s.toList with
  | some (v, rest) => if (skipWs rest).isEmpty then some v else none
  | none => none

/-- The greedy regex `/\[[\s\S]*\]/` of `extractTitles`: the segment from the
first `[` that is followed by some `]`, through the last `]` of the text. -/
def bracketSegment : List Char → Option (List Char)
  | [] => none
  | c :: rest =>
    if c = '[' && rest.contains ']' then
      match lastIndexOfFrom [']'] rest rest.length with
      | some j => some ('[' :: rest.take (j + 1))
      | none => none
    else bracketSegment rest

/-- One block of an LLM provider message (`message.content`): a text block,
or any other block kind (tool use, …). -/
inductive ContentBlock where
  | text (s : String)
  | toolUse
deriving DecidableEq

/-- Whether a block is a text block (`block.type === 'text'`). -/
def ContentBlock.isText : ContentBlock → Bool
  | .text _ => true
  | .toolUse => false

/-- The TypeScript returns `JSON.parse(...)` under a `string[]` type
assertion; this reads the JSON-array-of-strings shape the extraction prompt
requests (other shapes, which no later code meaningfully consumes, read as
their string elements). -/
def titlesOfJson : Json → List String
  | .arr es => es.filterMap (fun v => match v with | Json.str s => some s | _ => none)
  | _ => []

/-- The engine-specific message of the `SyntaxError` thrown by `JSON.parse`
on malformed input (its exact text is not modelled further). -/
def jsonSyntaxErrorMessage : String :=
  "Unexpected token in JSON"

/-- `ClaudeProvider.extractTitles` (claude.ts), over the provider's response
as an oracle: a failed API call or a response without a text block rethrows
as a `Claude API error: …`; a text block without a bracketed segment returns
the empty list; a bracketed segment is fed to `JSON.parse`, whose
`SyntaxError` is also rethrown as a `Claude API error: …`. -/
def extractTitles (resp : Except String (List ContentBlock)) :
    Except String (List String) :=
  match resp with
  | .error e => .error ("Claude API error: " ++ e)
  | .ok blocks =>
    match blocks.find? ContentBlock.isText with
    | some (ContentBlock.text t) =>
      match bracketSegment t.toList with
      | none => .ok []
      | some seg =>
        match jsonParse (String.mk seg) with
        | some v => .ok (titlesOfJson v)
        | none => .error ("Claude API error: " ++ jsonSyntaxErrorMessage)
    | _ => .error ("Claude API error: " ++ "No text content in Claude response")

/-- `parseTitles` (handler.ts): simple comma/newline split first; if it looks
reasonable use it, otherwise fall back to the provider's LLM extraction.
Errors thrown by the fallback propagate to the caller. -/
def parseTitles (input : String) (resp : Except String (List ContentBlock)) :
    Except String (List String) :=
  let simpleTitles := simpleParseTitle input
  if isValidSimpleParse simpleTitles then .ok simpleTitles
  else extractTitles resp

/-- Whether an `Except` result is a thrown error. -/
def throws {ε α : Type} : Except ε α → Bool
  | .error _ => true
  | .ok _ => false

/-! ## Batch generation (`generateBatchSynopses`) -/

/-- The result of one synopsis generation (handler.ts `SynopsisResult`).
The TypeScript `error?: boolean` field is omitted on success; the omitted
field reads as `false` here. -/
structure SynopsisResult where
  title : String
  content : String
  error : Bool
deriving DecidableEq

/-- The body of the per-title async closure in `generateBatchSynopses`:
a successful generation yields a headed artifact; a thrown provider
error is caught and converted into a visibly marked error artifact with the
error flag set.  `gen` is the provider oracle (`providerManager.generateSynopsis`),
whose failure carries the thrown error's message. -/
def runOne (gen : String → Except String String) (title : String) : SynopsisResult :=
  match gen title with
  | .ok synopsis =>
    { title := title, content := "## " ++ title ++ "\n\n" ++ synopsis, error := false }
  | .error e =>
    { title := title, content := "## " ++ title ++ "\n\n❌ Error: " ++ e, error := true }

/-- `generateBatchSynopses` (handler.ts): all titles processed (in parallel in
the source; `Promise.all` of `titles.map` keeps results indexed by input
position, so the collected result is the in-order map). -/
def generateBatchSynopses (gen : String → Except String String) (titles : List String) :
    List SynopsisResult :=
  titles.map (runOne gen)

/-! ## The deferred `synopsis-batch` pipeline, as an event trace

The orchestration in the Lambda entry file (`processDeferred` for the
`synopsis-batch` command, with `sendFollowUp`, `sendToThread`,
`sendBatchResults`, `sendBatchToThread` and `createStandaloneThread`) is
modelled as a function from oracles — the provider, the thread-creation
outcome, and the success of each successive transport post — to the list of
externally visible effects, in order. -/

deriving instance DecidableEq for Except

/-- One externally visible effect of the pipeline. -/
inductive Ev where
  /-- A webhook follow-up post to the invoking channel (one chunk);
  `ok` is the transport's success response. -/
  | followUpPost (chunk : String) (ephemeral : Bool) (ok : Bool)
  /-- A post of one chunk into a thread. -/
  | threadPost (threadId : String) (chunk : String) (ok : Bool)
  /-- The thread-creation attempt (`createStandaloneThread`):
  `result` is the new thread id, or `none` on failure. -/
  | threadCreate (name : String) (result : Option String)
  /-- One generation call to the provider for one work item. -/
  | genCall (title : String) (result : Except String String)
deriving DecidableEq

/-- Whether an effect is a generation call. -/
def Ev.isGenCall : Ev → Bool
  | .genCall _ _ => true
  | _ => false

/-- Whether an effect is a post into a thread. -/
def Ev.isThreadPost : Ev → Bool
  | .threadPost _ _ _ => true
  | _ => false

/-- The chunk a posting effect carries (`""` for non-post effects). -/
def Ev.chunkOf : Ev → String
  | .followUpPost c _ _ => c
  | .threadPost _ c _ => c
  | _ => ""

/-- The transport success flag of a posting effect (`true` for others). -/
def Ev.okOf : Ev → Bool
  | .followUpPost _ _ ok => ok
  | .threadPost _ _ ok => ok
  | _ => true

/-- The chunk-posting loop shared by `sendFollowUp`, `sendToThread` and the
inner loop of `sendBatchResults`: post chunks in order, stop after the first
failed post (`break`), leaving later chunks unposted.  `postOk k` is the
transport oracle for the `k`-th post of the invocation; the pacing delays
between posts have no observable effect here. -/
def postChunks (mk : String → Bool → Ev) (postOk : Nat → Bool) (k : Nat) :
    List String → List Ev × Nat
  | [] => ([], k)
  | c :: cs =>
    if postOk k then
      let rest := postChunks mk postOk (k + 1) cs
      (mk c true :: rest.1, rest.2)
    else ([mk c false], k + 1)

/-- `sendFollowUp` (entry file): split the content and post each chunk to the
interaction webhook, stopping on the first failure. -/
def sendFollowUpEv (content : String) (ephemeral : Bool) (postOk : Nat → Bool)
    (k : Nat) : List Ev × Nat :=
  postChunks (fun c ok => Ev.followUpPost c ephemeral ok) postOk k (splitContent content)

/-- `sendToThread` (entry file): split the content and post each chunk into
the thread, stopping on the first failure. -/
def sendToThreadEv (threadId : String) (content : String) (postOk : Nat → Bool)
    (k : Nat) : List Ev × Nat :=
  postChunks (Ev.threadPost threadId) postOk k (splitContent content)

/-- `sendBatchResults` (entry file): for each result in order, split its
artifact and post the chunks; a failed post drops the rest of that artifact's
chunks (`break`) but the loop continues with the next artifact. -/
def sendBatchResultsEv (postOk : Nat → Bool) (k : Nat) :
    List SynopsisResult → List Ev × Nat
  | [] => ([], k)
  | r :: rs =>
    let a := postChunks (fun c ok => Ev.followUpPost c false ok) postOk k
      (splitContent r.content)
    let b := sendBatchResultsEv postOk a.2 rs
    (a.1 ++ b.1, b.2)

/-- `sendBatchToThread` (entry file): each result's artifact sent to the
thread in order via `sendToThread`. -/
def sendBatchToThreadEv (threadId : String) (postOk : Nat → Bool) (k : Nat) :
    List SynopsisResult → List Ev × Nat
  | [] => ([], k)
  | r :: rs =>
    let a := sendToThreadEv threadId r.content postOk k
    let b := sendBatchToThreadEv threadId postOk a.2 rs
    (a.1 ++ b.1, b.2)

/-- The generation fan-out of the `Generating` stage, as effects (one
provider call per title, results indexed by input position). -/
def genEvents (gen : String → Except String String) (titles : List String) : List Ev :=
  titles.map (fun t => Ev.genCall t (gen t))

/-- The oracles one deferred `synopsis-batch` invocation consumes. -/
structure BatchEnv where
  /-- The provider's synopsis generation, per title. -/
  gen : String → Except String String
  /-- The outcome of `createStandaloneThread`: a thread id, or `none` when
  creation fails. -/
  createThread : Option String
  /-- The transport's response to the `k`-th post of the invocation. -/
  postOk : Nat → Bool
  /-- The provider response consumed by the `extractTitles` fallback of
  `parseTitles`. -/
  parseResp : Except String (List ContentBlock)

/-- The numbered listing posted to a fresh thread
(`titles.map((t, i) => ...).join('\n')`). -/
def numberedListing (titles : List String) : String :=
  "Processing synopses for:\n"
    ++ String.intercalate "\n"
      (titles.enum.map (fun p => toString (p.1 + 1) ++ ". " ++ p.2))

/-- The thread name `📚 Book Synopses (N books)`. -/
def threadName (titles : List String) : String :=
  "📚 Book Synopses (" ++ toString titles.length ++ " books)"

/-- The direct-to-channel delivery tail of `processDeferred` (also the
fallback after a failed thread creation): initial listing follow-up,
generation fan-out, then `sendBatchResults`. -/
def directDelivery (titles : List String) (env : BatchEnv) (k : Nat) : List Ev :=
  let a := sendFollowUpEv
    ("📚 Processing " ++ toString titles.length ++ " book(s): "
      ++ String.intercalate ", " titles
      ++ "\n\n_Synopses will appear below as they complete..._") false env.postOk k
  let results := generateBatchSynopses env.gen titles
  let b := sendBatchResultsEv env.postOk a.2 results
  a.1 ++ genEvents env.gen titles ++ b.1

/-- `processDeferred` for the `synopsis-batch` slash command (entry file):
resolve titles (errors from the resolver are caught at the orchestrator
boundary and reported as a single `❌ Error: …` follow-up); terminate with a
diagnostic on zero or more than ten titles; on `useThread`, attempt a thread
and deliver there, falling back to the channel when creation fails; otherwise
deliver directly to the channel. -/
def processBatchCmd (titlesString : String) (useThread : Bool) (env : BatchEnv) :
    List Ev :=
  match parseTitles titlesString env.parseResp with
  | .error e => (sendFollowUpEv ("❌ Error: " ++ e) false env.postOk 0).1
  | .ok titles =>
    if titles.length = 0 then
      (sendFollowUpEv "❌ Could not find any book titles in your input" false env.postOk 0).1
    else if titles.length > 10 then
      (sendFollowUpEv
        ("❌ Too many books (" ++ toString titles.length ++ "). Maximum 10 per batch.")
        false env.postOk 0).1
    else if useThread then
      match env.createThread with
      | some tid =>
        let a := sendToThreadEv tid (numberedListing titles) env.postOk 0
        let results := generateBatchSynopses env.gen titles
        let b := sendBatchToThreadEv tid env.postOk a.2 results
        let c := sendFollowUpEv
          ("✅ Synopses generated for " ++ toString titles.length ++ " book(s) in thread.")
          true env.postOk b.2
        Ev.threadCreate (threadName titles) (some tid) :: a.1
          ++ genEvents env.gen titles ++ b.1 ++ c.1
      | none =>
        Ev.threadCreate (threadName titles) none :: directDelivery titles env 0
    else directDelivery titles env 0

/-- The per-artifact delivery blocks of `sendBatchResults`: the events its
outer loop produces for each result, in order (the inner chunk loop with its
`break`, one block per artifact). -/
def batchBlocks (postOk : Nat → Bool) (k : Nat) :
    List SynopsisResult → List (List Ev)
  | [] => []
  | r :: rs =>
    let a := postChunks (fun c ok => Ev.followUpPost c false ok) postOk k
      (splitContent r.content)
    a.1 :: batchBlocks postOk a.2 rs

/-! ## Basic facts about trimming and the split-point search -/

theorem jsTrim_sublist (l : List Char) : (jsTrim l).Sublist l := by
  unfold jsTrim trimLeftChars trimRightChars
  refine (List.dropWhile_sublist _).trans ?_
  have h := (List.dropWhile_sublist (p := isJsWhitespace) (l := l.reverse)).reverse
  simpa using h

theorem jsTrim_length_le (l : List Char) : (jsTrim l).length ≤ l.length :=
  (jsTrim_sublist l).length_le

theorem filter_dropWhile_eq (p : Char → Bool) (l : List Char) :
    (l.dropWhile p).filter (fun c => !p c) = l.filter (fun c => !p c) := by
  conv_rhs => rw [← List.takeWhile_append_dropWhile (p := p) (l := l)]
  rw [List.filter_append]
  have : (l.takeWhile p).filter (fun c => !p c) = [] := by
    rw [List.filter_eq_nil_iff]
    intro c hc
    have := List.mem_takeWhile_imp hc
    simp [this]
  rw [this, List.nil_append]

theorem jsTrim_filter (l : List Char) :
    (jsTrim l).filter (fun c => !isJsWhitespace c) = l.filter (fun c => !isJsWhitespace c) := by
  unfold jsTrim trimLeftChars trimRightChars
  rw [filter_dropWhile_eq]
  rw [List.filter_reverse, filter_dropWhile_eq, ← List.filter_reverse, List.reverse_reverse]

theorem lastIndexOfFrom_le {pat r : List Char} {fromIdx i : Nat}
    (h : lastIndexOfFrom pat r fromIdx = some i) : i ≤ fromIdx := by
  unfold lastIndexOfFrom at h
  have hm := List.mem_of_find?_eq_some h
  rw [List.mem_reverse, List.mem_range] at hm
  omega

theorem accept_or_else_le {maxLength k : Nat} {o : Option Nat}
    (ho : ∀ i, o = some i → i ≤ maxLength) (hk : k ≤ maxLength) :
    (if acceptableSplit maxLength o then o.getD 0 else k) ≤ maxLength := by
  cases o with
  | none => simpa [acceptableSplit] using hk
  | some i =>
    simp only [acceptableSplit, Option.getD_some]
    split
    · exact ho i rfl
    · exact hk

theorem accept_or_else_midpoint {maxLength k : Nat} {o : Option Nat}
    (hk : maxLength ≤ 2 * k) :
    maxLength ≤ 2 * (if acceptableSplit maxLength o then o.getD 0 else k) := by
  cases o with
  | none => simpa [acceptableSplit] using hk
  | some i =>
    simp only [acceptableSplit, Option.getD_some, decide_eq_true_eq]
    split
    · assumption
    · exact hk

theorem chooseSplitIndex_le (maxLength : Nat) (r : List Char) :
    chooseSplitIndex maxLength r ≤ maxLength := by
  unfold chooseSplitIndex
  refine accept_or_else_le (fun i h => lastIndexOfFrom_le h) ?_
  refine accept_or_else_le (fun i h => lastIndexOfFrom_le h) ?_
  exact accept_or_else_le (fun i h => lastIndexOfFrom_le h) le_rfl

theorem chooseSplitIndex_midpoint_le (maxLength : Nat) (r : List Char) :
    maxLength ≤ 2 * chooseSplitIndex maxLength r := by
  unfold chooseSplitIndex
  refine accept_or_else_midpoint ?_
  refine accept_or_else_midpoint ?_
  exact accept_or_else_midpoint (by omega)

theorem one_le_chooseSplitIndex (maxLength : Nat) (r : List Char)
    (h : 1 ≤ maxLength) : 1 ≤ chooseSplitIndex maxLength r := by
  have := chooseSplitIndex_midpoint_le maxLength r
  omega

/-! ## The chunk-splitter contracts -/

example : splitContent "ab cd" 3 = ["ab", "cd"] := by decide

example : splitContent "ab        cccccccccccc" 10 = ["ab", "cccccccccc", "cc"] := by decide

theorem splitLoop_chunk_le (maxLength fuel : Nat) :
    ∀ r c, c ∈ splitLoop maxLength fuel r → c.length ≤ maxLength := by
  induction fuel with
  | zero => intro r c hc; simp [splitLoop] at hc
  | succ fuel ih =>
    intro r c hc
    unfold splitLoop at hc
    split at hc
    · simp at hc
    · split at hc
      · rw [List.mem_singleton] at hc
        subst hc; assumption
      · rw [List.mem_cons] at hc
        rcases hc with hc | hc
        · subst hc
          calc (jsTrim (r.take (chooseSplitIndex maxLength r))).length
              ≤ (r.take (chooseSplitIndex maxLength r)).length := jsTrim_length_le _
            _ ≤ chooseSplitIndex maxLength r := by simp [List.length_take]
            _ ≤ maxLength := chooseSplitIndex_le maxLength r
        · exact ih _ c hc

/-- C3.  Every chunk `splitContent` emits has length at most `maxLen`
(for every input text and every `maxLen`, the default `1900` included). -/
theorem splitContent_chunk_le (content : String) (maxLength : Nat) (c : String)
    (hc : c ∈ splitContent content maxLength) : c.length ≤ maxLength := by
  unfold splitContent at hc
  split at hc
  · rw [List.mem_singleton] at hc; subst hc; assumption
  · rw [List.mem_map] at hc
    obtain ⟨l, hl, rfl⟩ := hc
    simpa using splitLoop_chunk_le maxLength _ _ l hl

/-- Witness for C3 at a concrete input: `splitContent "ab cd" 3 = ["ab", "cd"]`. -/
theorem splitContent_chunk_le_witness : ("ab" : String).length ≤ 3 :=
  splitContent_chunk_le "ab cd" 3 "ab" (by decide)

theorem splitLoop_reconstructs (maxLength : Nat) (hmax : 1 ≤ maxLength) :
    ∀ fuel r, r.length < fuel →
      ((splitLoop maxLength fuel r).flatten.Sublist r ∧
        (splitLoop maxLength fuel r).flatten.filter (fun c => !isJsWhitespace c)
          = r.filter (fun c => !isJsWhitespace c)) := by
  intro fuel
  induction fuel with
  | zero => intro r hr; omega
  | succ fuel ih =>
    intro r hr
    unfold splitLoop
    split
    · rename_i hemp
      rw [List.isEmpty_iff] at hemp
      subst hemp
      simp
    · split
      · simp
      · rename_i hemp hlong
        set si := chooseSplitIndex maxLength r with hsi
        have hsi1 : 1 ≤ si := one_le_chooseSplitIndex maxLength r hmax
        have hrlen : 1 ≤ r.length := by
          cases r with
          | nil => simp at hemp
          | cons a l => simp
        have hdrop : (jsTrim (r.drop si)).length < fuel := by
          have h1 : (jsTrim (r.drop si)).length ≤ (r.drop si).length := jsTrim_length_le _
          have h2 : (r.drop si).length = r.length - si := by simp
          omega
        obtain ⟨ihsub, ihfil⟩ := ih (jsTrim (r.drop si)) hdrop
        constructor
        · show (jsTrim (r.take si) :: splitLoop maxLength fuel (jsTrim (r.drop si))).flatten.Sublist r
          rw [List.flatten_cons]
          have h1 : (jsTrim (r.take si)).Sublist (r.take si) := jsTrim_sublist _
          have h2 : (splitLoop maxLength fuel (jsTrim (r.drop si))).flatten.Sublist (r.drop si) :=
            ihsub.trans (jsTrim_sublist _)
          have := h1.append h2
          simpa [List.take_append_drop] using this
        · show (jsTrim (r.take si) :: splitLoop maxLength fuel (jsTrim (r.drop si))).flatten.filter
              (fun c => !isJsWhitespace c) = r.filter (fun c => !isJsWhitespace c)
          rw [List.flatten_cons, List.filter_append, jsTrim_filter, ihfil, jsTrim_filter,
            ← List.filter_append, List.take_append_drop]

/-- C4.  Concatenating the chunks of `splitContent` loses no non-whitespace
character: the concatenation is a sublist of the original text, and the two
agree once whitespace is filtered out (only boundary whitespace is trimmed).
Stated for `1 ≤ maxLen` (with `maxLen = 0` and non-empty input the JS loop
does not terminate; the default is `1900`). -/
theorem splitContent_reconstructs (content : String) (maxLength : Nat)
    (hmax : 1 ≤ maxLength) :
    (((splitContent content maxLength).map String.toList).flatten.Sublist content.toList ∧
      ((splitContent content maxLength).map String.toList).flatten.filter
          (fun c => !isJsWhitespace c)
        = content.toList.filter (fun c => !isJsWhitespace c)) := by
  unfold splitContent
  split
  · simp
  · have h := splitLoop_reconstructs maxLength hmax (content.toList.length + 1)
      content.toList (by omega)
    have hmap : String.toList ∘ String.mk = id := funext fun l => rfl
    rw [List.map_map, hmap, List.map_id]
    exact h

/-- Witness for C4 at a concrete input (`splitContent "ab cd" 3 = ["ab", "cd"]`,
whose concatenation `"abcd"` is `"ab cd"` minus the boundary space). -/
theorem splitContent_reconstructs_witness :
    ((((splitContent "ab cd" 3).map String.toList).flatten.Sublist "ab cd".toList) ∧
      (((splitContent "ab cd" 3).map String.toList).flatten.filter (fun c => !isJsWhitespace c)
        = "ab cd".toList.filter (fun c => !isJsWhitespace c))) :=
  splitContent_reconstructs "ab cd" 3 (by decide)

/-- C5, counterexample.  The midpoint guard constrains the split *index*, but
chunks are trimmed after splitting: on `"ab" ++ 8 spaces ++ 12 × 'c'` with
`maxLen = 10` the chunks are `["ab", "cccccccccc", "cc"]`, and the first
emitted (non-last) chunk `"ab"` has length `2 < 10 / 2`, refuting
"every emitted chunk except the last has length at least maxLen/2". -/
theorem splitContent_midpoint_cex :
    ((splitContent "ab        cccccccccccc" 10).dropLast.all
        (fun c => decide (10 / 2 ≤ c.length)))
      = false := by
  decide

/-- C5, amended.  `splitContent` never *accepts a split point* below half the
max length: the index chosen by the tie-break search (paragraph break, then
line break, then space, then hard cut) always satisfies
`maxLen / 2 ≤ index ≤ maxLen`, so every chunk except the last is the trim of a
segment of at least half the max length — but after trimming the emitted chunk
itself can be shorter. -/
theorem chooseSplitIndex_bounds (maxLength : Nat) (r : List Char) :
    maxLength ≤ 2 * chooseSplitIndex maxLength r ∧
      chooseSplitIndex maxLength r ≤ maxLength :=
  ⟨chooseSplitIndex_midpoint_le maxLength r, chooseSplitIndex_le maxLength r⟩

/-! ## Title resolver theorems -/

example : simpleParseTitle "Dune, 1984, Foundation" = ["Dune", "1984", "Foundation"] := by
  decide

example : isValidSimpleParse (simpleParseTitle "Dune, 1984, Foundation") = true := by decide

example :
    isValidSimpleParse (simpleParseTitle "we talked about maybe reading Dune or 1984")
      = false := by decide

example : (jsonParse "[oops]").isNone = true := by decide

example : bracketSegment "ab [x] cd [y] e".toList = some "[x] cd [y]".toList := by decide

example : bracketSegment "no array here".toList = none := by decide

theorem jsTrim_eq_nil_of_all_ws {l : List Char}
    (h : ∀ c ∈ l, isJsWhitespace c = true) : jsTrim l = [] := by
  unfold jsTrim trimLeftChars trimRightChars
  have h1 : l.reverse.dropWhile isJsWhitespace = [] := by
    rw [List.dropWhile_eq_nil_iff]
    intro x hx
    exact h x (List.mem_reverse.mp hx)
  rw [h1]
  rfl

/-- C2, counterexample.  `parseTitles` can throw: on an input the simple
parse rejects (it contains the standalone word "or" and filler words), with
the provider's extraction output `"[oops]"` — a bracketed segment that is not
valid JSON — `JSON.parse`'s `SyntaxError` is rethrown by `extractTitles` and
propagates out of `parseTitles`, refuting "never throws: it fails only by
returning an empty list". -/
theorem parseTitles_throws_cex :
    throws (parseTitles "we talked about maybe reading Dune or 1984"
      (Except.ok [ContentBlock.text "[oops]"])) = true := by
  decide

/-- C2, amended.  `parseTitles` does not throw when the simple parse
validates, and on the fallback path a provider text output with *no*
bracketed segment yields the empty list (not an exception); but the fallback
propagates an error when the provider call itself fails, when the response
carries no text block, and when a bracketed segment is present but is not
valid JSON. -/
theorem parseTitles_error_modes :
    (∀ (input : String) (resp : Except String (List ContentBlock)),
        isValidSimpleParse (simpleParseTitle input) = true →
        parseTitles input resp = Except.ok (simpleParseTitle input))
    ∧ (∀ (input : String) (blocks : List ContentBlock) (t : String),
        isValidSimpleParse (simpleParseTitle input) = false →
        blocks.find? ContentBlock.isText = some (ContentBlock.text t) →
        bracketSegment t.toList = none →
        parseTitles input (Except.ok blocks) = Except.ok [])
    ∧ (∀ (input e : String),
        isValidSimpleParse (simpleParseTitle input) = false →
        parseTitles input (Except.error e) = Except.error ("Claude API error: " ++ e))
    ∧ (∀ (input : String) (blocks : List ContentBlock),
        isValidSimpleParse (simpleParseTitle input) = false →
        blocks.find? ContentBlock.isText = none →
        parseTitles input (Except.ok blocks)
          = Except.error ("Claude API error: " ++ "No text content in Claude response"))
    ∧ (∀ (input : String) (blocks : List ContentBlock) (t : String) (seg : List Char),
        isValidSimpleParse (simpleParseTitle input) = false →
        blocks.find? ContentBlock.isText = some (ContentBlock.text t) →
        bracketSegment t.toList = some seg →
        jsonParse (String.mk seg) = none →
        parseTitles input (Except.ok blocks)
          = Except.error ("Claude API error: " ++ jsonSyntaxErrorMessage)) := by
  refine ⟨?_, ?_, ?_, ?_, ?_⟩
  · intro input resp h
    simp [parseTitles, h]
  · intro input blocks t h hf hb
    simp only [String.toList] at hb
    simp [parseTitles, h, extractTitles, hf, hb]
  · intro input e h
    simp [parseTitles, h, extractTitles]
  · intro input blocks h hf
    simp [parseTitles, h, extractTitles, hf]
  · intro input blocks t seg h hf hb hj
    simp only [String.toList] at hb
    simp [parseTitles, h, extractTitles, hf, hb, hj]

/-- C6.  The simple-parse path: an input containing a comma is split on
commas, each piece trimmed, empty pieces dropped; whenever the resulting
pieces all pass validation, `parseTitles` returns them in order without
consulting the provider (the result is the same for every provider
response).  Concretely, `"Dune, 1984, Foundation"` resolves to
`["Dune", "1984", "Foundation"]`, while
`"we talked about maybe reading Dune or 1984"` is rejected by the simple
parse and takes the extraction fallback path. -/
theorem simpleParse_comma_path :
    (∀ input : String, input.toList.contains ',' = true →
        simpleParseTitle input
          = ((splitOnChar ',' input.toList).map (fun p => String.mk (jsTrim p))).filter
              (fun t => t.length != 0))
    ∧ (∀ (input : String) (resp : Except String (List ContentBlock)),
        isValidSimpleParse (simpleParseTitle input) = true →
        parseTitles input resp = Except.ok (simpleParseTitle input))
    ∧ (∀ resp : Except String (List ContentBlock),
        parseTitles "Dune, 1984, Foundation" resp
          = Except.ok ["Dune", "1984", "Foundation"])
    ∧ (isValidSimpleParse (simpleParseTitle "we talked about maybe reading Dune or 1984")
          = false
        ∧ ∀ resp : Except String (List ContentBlock),
            parseTitles "we talked about maybe reading Dune or 1984" resp
              = extractTitles resp) := by
  refine ⟨?_, ?_, ?_, ?_, ?_⟩
  · intro input h
    have h' : ',' ∈ input.data := by simpa [String.toList] using h
    simp [simpleParseTitle, h']
  · intro input resp h
    simp [parseTitles, h]
  · intro resp
    have h : isValidSimpleParse (simpleParseTitle "Dune, 1984, Foundation") = true := by
      decide
    simp [parseTitles, h]
    decide
  · decide
  · intro resp
    have h : isValidSimpleParse
        (simpleParseTitle "we talked about maybe reading Dune or 1984") = false := by
      decide
    simp [parseTitles, h]

/-- C10.  An input with neither comma nor newline resolves, on the simple
path, to the one-element list holding the trimmed input; for an all-whitespace
(or empty) such input that element is `""`, which passes validation, so
`parseTitles` returns `[""]` — not the empty list — for every provider
response, i.e. the LLM extraction fallback is never consulted. -/
theorem simpleParse_no_separator :
    (∀ input : String, input.toList.contains ',' = false →
        input.toList.contains '\n' = false →
        simpleParseTitle input = [jsTrimStr input])
    ∧ (∀ (input : String) (resp : Except String (List ContentBlock)),
        input.toList.contains ',' = false →
        input.toList.contains '\n' = false →
        (∀ c ∈ input.toList, isJsWhitespace c = true) →
        parseTitles input resp = Except.ok [""]) := by
  constructor
  · intro input hc hn
    have hc' : ',' ∉ input.data := by simpa [String.toList] using hc
    have hn' : '\n' ∉ input.data := by simpa [String.toList] using hn
    simp [simpleParseTitle, hc', hn']
  · intro input resp hc hn hws
    have hc' : ',' ∉ input.data := by simpa [String.toList] using hc
    have hn' : '\n' ∉ input.data := by simpa [String.toList] using hn
    have htrim : jsTrimStr input = "" := by
      unfold jsTrimStr
      rw [jsTrim_eq_nil_of_all_ws hws]
    have hsimple : simpleParseTitle input = [""] := by
      rw [show simpleParseTitle input = [jsTrimStr input] by simp [simpleParseTitle, hc', hn'],
        htrim]
    have hvalid : isValidSimpleParse [""] = true := by decide
    simp [parseTitles, hsimple, hvalid]

/-! ## The batch generation theorem -/

/-- C1.  For every failure pattern of the provider, the batch result sequence
mirrors the input title list exactly — same length, same order, no item
dropped — and each item is marked: a failed generation becomes an artifact
headed `## title` carrying `❌ Error: …` with the error flag set, a successful
one the headed synopsis with the flag clear. -/
theorem generateBatchSynopses_mirrors_input
    (gen : String → Except String String) (titles : List String) :
    ((generateBatchSynopses gen titles).map SynopsisResult.title = titles
      ∧ (generateBatchSynopses gen titles).length = titles.length)
    ∧ (∀ r ∈ generateBatchSynopses gen titles,
        (∀ e, gen r.title = Except.error e →
          r.error = true ∧ r.content = "## " ++ r.title ++ "\n\n❌ Error: " ++ e)
        ∧ (∀ s, gen r.title = Except.ok s →
          r.error = false ∧ r.content = "## " ++ r.title ++ "\n\n" ++ s)) := by
  constructor
  · constructor
    · unfold generateBatchSynopses
      rw [List.map_map]
      have : SynopsisResult.title ∘ runOne gen = id := by
        funext t
        simp only [Function.comp_apply, id_eq]
        unfold runOne
        cases gen t <;> rfl
      rw [this, List.map_id]
    · simp [generateBatchSynopses]
  · intro r hr
    rw [generateBatchSynopses, List.mem_map] at hr
    obtain ⟨t, _, rfl⟩ := hr
    have htitle : (runOne gen t).title = t := by
      unfold runOne
      cases gen t <;> rfl
    rw [htitle]
    constructor
    · intro e he
      unfold runOne
      rw [he]
      exact ⟨rfl, rfl⟩
    · intro s hs
      unfold runOne
      rw [hs]
      exact ⟨rfl, rfl⟩

/-! ## Delivery and orchestration lemmas -/

theorem postChunks_forall (mk : String → Bool → Ev) (P : Ev → Prop)
    (hmk : ∀ c ok, P (mk c ok)) (postOk : Nat → Bool) :
    ∀ cs k, ∀ ev ∈ (postChunks mk postOk k cs).1, P ev := by
  intro cs
  induction cs with
  | nil => intro k ev hev; simp [postChunks] at hev
  | cons c cs ih =>
    intro k ev hev
    by_cases hk : postOk k = true
    · simp only [postChunks, hk, if_true] at hev
      rcases List.mem_cons.mp hev with h | h
      · subst h; exact hmk c true
      · exact ih _ ev h
    · rw [Bool.not_eq_true] at hk
      simp only [postChunks, hk] at hev
      simp at hev
      subst hev
      exact hmk c false

theorem postChunks_eq_map_of_postOk {mk : String → Bool → Ev} {postOk : Nat → Bool}
    (hpost : ∀ k, postOk k = true) :
    ∀ cs k, (postChunks mk postOk k cs).1 = cs.map (fun c => mk c true) := by
  intro cs
  induction cs with
  | nil => intro k; simp [postChunks]
  | cons c cs ih =>
    intro k
    simp only [postChunks, hpost k, if_true, List.map_cons]
    rw [ih]

theorem postChunks_ne_nil {mk : String → Bool → Ev} {postOk : Nat → Bool}
    {cs : List String} (h : cs ≠ []) (k : Nat) :
    (postChunks mk postOk k cs).1 ≠ [] := by
  cases cs with
  | nil => exact absurd rfl h
  | cons c cs =>
    by_cases hk : postOk k = true
    · simp [postChunks, hk]
    · rw [Bool.not_eq_true] at hk
      simp [postChunks, hk]

theorem splitLoop_ne_nil (maxLength fuel : Nat) (r : List Char) (hne : r ≠ []) :
    splitLoop maxLength (fuel + 1) r ≠ [] := by
  unfold splitLoop
  split
  · rename_i h
    rw [List.isEmpty_iff] at h
    exact absurd h hne
  · split
    · simp
    · simp

theorem splitContent_ne_nil (content : String) (maxLength : Nat) :
    splitContent content maxLength ≠ [] := by
  unfold splitContent
  split
  · simp
  · rename_i h
    rw [not_le] at h
    have hne : content.toList ≠ [] := by
      intro he
      rw [show content.length = content.toList.length from rfl, he] at h
      simp at h
    have := splitLoop_ne_nil maxLength content.toList.length content.toList hne
    simpa using this

theorem postChunks_chunks_take (mk : String → Bool → Ev)
    (hmk : ∀ c ok, (mk c ok).chunkOf = c) (postOk : Nat → Bool) :
    ∀ cs k, (postChunks mk postOk k cs).1.map Ev.chunkOf
      = cs.take (postChunks mk postOk k cs).1.length := by
  intro cs
  induction cs with
  | nil => intro k; simp [postChunks]
  | cons c cs ih =>
    intro k
    by_cases hk : postOk k = true
    · simp only [postChunks, hk, if_true, List.map_cons, List.length_cons, List.take_succ_cons,
        hmk]
      rw [ih]
    · rw [Bool.not_eq_true] at hk
      simp [postChunks, hk, hmk]

theorem postChunks_dropLast_ok (mk : String → Bool → Ev)
    (hmk : ∀ c ok, (mk c ok).okOf = ok) (postOk : Nat → Bool) :
    ∀ cs k, ∀ ev ∈ (postChunks mk postOk k cs).1.dropLast, ev.okOf = true := by
  intro cs
  induction cs with
  | nil => intro k ev hev; simp [postChunks] at hev
  | cons c cs ih =>
    intro k ev hev
    by_cases hk : postOk k = true
    · simp only [postChunks, hk, if_true] at hev
      cases hrest : (postChunks mk postOk (k + 1) cs).1 with
      | nil => rw [hrest] at hev; simp at hev
      | cons x xs =>
        rw [hrest, List.dropLast_cons₂] at hev
        rcases List.mem_cons.mp hev with h | h
        · subst h; exact hmk c true
        · have := ih (k + 1) ev
          rw [hrest] at this
          exact this h
    · rw [Bool.not_eq_true] at hk
      simp [postChunks, hk] at hev

/-! ## C7: too many titles terminate the pipeline at `Resolving` -/

/-- C7.  When the resolved title list has more than ten entries, the deferred
`synopsis-batch` invocation emits exactly the follow-up carrying the
`❌ Too many books (N). Maximum 10 per batch.` diagnostic — and nothing else:
in particular, no generation call is issued — whether or not a thread was
requested. -/
theorem processBatch_tooMany (titlesString : String) (useThread : Bool)
    (env : BatchEnv) (titles : List String)
    (hparse : parseTitles titlesString env.parseResp = Except.ok titles)
    (hlen : 10 < titles.length) :
    processBatchCmd titlesString useThread env
        = (sendFollowUpEv
            ("❌ Too many books (" ++ toString titles.length ++ "). Maximum 10 per batch.")
            false env.postOk 0).1
      ∧ ∀ ev ∈ processBatchCmd titlesString useThread env, ev.isGenCall = false := by
  have h0 : ¬ (titles.length = 0) := by omega
  have hred : processBatchCmd titlesString useThread env
      = (sendFollowUpEv
          ("❌ Too many books (" ++ toString titles.length ++ "). Maximum 10 per batch.")
          false env.postOk 0).1 := by
    simp [processBatchCmd, hparse, h0, hlen]
  refine ⟨hred, ?_⟩
  rw [hred]
  exact postChunks_forall (fun c ok => Ev.followUpPost c false ok)
    (fun ev => ev.isGenCall = false) (fun c ok => rfl) env.postOk _ 0

/-- Witness for C7: eleven comma-separated titles resolve on the simple path,
and the pipeline emits only the diagnostic. -/
theorem processBatch_tooMany_witness :
    (processBatchCmd "a,b,c,d,e,f,g,h,i,j,k" true
          ⟨fun _ => Except.ok "", none, fun _ => true, Except.ok []⟩
        = (sendFollowUpEv "❌ Too many books (11). Maximum 10 per batch."
            false (fun _ => true) 0).1
      ∧ ∀ ev ∈ processBatchCmd "a,b,c,d,e,f,g,h,i,j,k" true
          ⟨fun _ => Except.ok "", none, fun _ => true, Except.ok []⟩,
          ev.isGenCall = false) :=
  processBatch_tooMany "a,b,c,d,e,f,g,h,i,j,k" true
    ⟨fun _ => Except.ok "", none, fun _ => true, Except.ok []⟩
    ["a", "b", "c", "d", "e", "f", "g", "h", "i", "j", "k"]
    (by decide) (by decide)

/-! ## C8: thread-creation failure falls back to the channel -/

theorem genEvents_not_threadPost (gen : String → Except String String)
    (titles : List String) : ∀ ev ∈ genEvents gen titles, ev.isThreadPost = false := by
  intro ev hev
  rw [genEvents, List.mem_map] at hev
  obtain ⟨t, _, rfl⟩ := hev
  rfl

theorem sendBatchResultsEv_forall (P : Ev → Prop)
    (hP : ∀ c ok, P (Ev.followUpPost c false ok)) (postOk : Nat → Bool) :
    ∀ results k, ∀ ev ∈ (sendBatchResultsEv postOk k results).1, P ev := by
  intro results
  induction results with
  | nil => intro k ev hev; simp [sendBatchResultsEv] at hev
  | cons r rs ih =>
    intro k ev hev
    have hev' : ev ∈ (postChunks (fun c ok => Ev.followUpPost c false ok) postOk k
          (splitContent r.content)).1
        ++ (sendBatchResultsEv postOk
          (postChunks (fun c ok => Ev.followUpPost c false ok) postOk k
            (splitContent r.content)).2 rs).1 := hev
    rcases List.mem_append.mp hev' with h | h
    · exact postChunks_forall (fun c ok => Ev.followUpPost c false ok) P hP postOk _ k
        ev h
    · exact ih _ ev h

theorem sendBatchResultsEv_mem {postOk : Nat → Bool} (hpost : ∀ k, postOk k = true) :
    ∀ (results : List SynopsisResult) (k : Nat) (r : SynopsisResult), r ∈ results →
      ∀ ch ∈ splitContent r.content,
        Ev.followUpPost ch false true ∈ (sendBatchResultsEv postOk k results).1 := by
  intro results
  induction results with
  | nil => intro k r hr; simp at hr
  | cons r0 rs ih =>
    intro k r hr ch hch
    show Ev.followUpPost ch false true
      ∈ (postChunks (fun c ok => Ev.followUpPost c false ok) postOk k
          (splitContent r0.content)).1
        ++ (sendBatchResultsEv postOk
          (postChunks (fun c ok => Ev.followUpPost c false ok) postOk k
            (splitContent r0.content)).2 rs).1
    rw [List.mem_append]
    rcases List.mem_cons.mp hr with h | h
    · left
      subst h
      rw [postChunks_eq_map_of_postOk hpost]
      exact List.mem_map.mpr ⟨ch, hch, rfl⟩
    · right
      exact ih _ r h ch hch

/-- C8.  When thread creation fails (the creation call yields no thread id),
the invocation is not failed: no post goes to a thread, and — with a
transport that accepts every post — every chunk of every generated artifact
is delivered to the invoking channel as an ordinary follow-up, so the
pipeline runs to completion. -/
theorem processBatch_threadFallback (titlesString : String) (env : BatchEnv)
    (titles : List String)
    (hparse : parseTitles titlesString env.parseResp = Except.ok titles)
    (h0 : 0 < titles.length) (h10 : titles.length ≤ 10)
    (hthread : env.createThread = none) (hpost : ∀ k, env.postOk k = true) :
    (∀ ev ∈ processBatchCmd titlesString true env, ev.isThreadPost = false)
      ∧ ∀ r ∈ generateBatchSynopses env.gen titles, ∀ ch ∈ splitContent r.content,
          Ev.followUpPost ch false true ∈ processBatchCmd titlesString true env := by
  have h0' : ¬ (titles.length = 0) := by omega
  have h10' : ¬ (titles.length > 10) := by omega
  have hred : processBatchCmd titlesString true env
      = Ev.threadCreate (threadName titles) none :: directDelivery titles env 0 := by
    simp [processBatchCmd, hparse, h0', h10', hthread]
  constructor
  · intro ev hev
    rw [hred] at hev
    rcases List.mem_cons.mp hev with h | h
    · subst h; rfl
    · have h' : ev ∈ (sendFollowUpEv
            ("📚 Processing " ++ toString titles.length ++ " book(s): "
              ++ String.intercalate ", " titles
              ++ "\n\n_Synopses will appear below as they complete..._") false env.postOk 0).1
          ++ genEvents env.gen titles
          ++ (sendBatchResultsEv env.postOk
            (sendFollowUpEv
              ("📚 Processing " ++ toString titles.length ++ " book(s): "
                ++ String.intercalate ", " titles
                ++ "\n\n_Synopses will appear below as they complete..._")
              false env.postOk 0).2
            (generateBatchSynopses env.gen titles)).1 := h
      rcases List.mem_append.mp h' with h2 | h2
      · rcases List.mem_append.mp h2 with h3 | h3
        · exact postChunks_forall (fun c ok => Ev.followUpPost c false ok)
            (fun e => e.isThreadPost = false) (fun c ok => rfl) env.postOk _ 0 ev h3
        · exact genEvents_not_threadPost env.gen titles ev h3
      · exact sendBatchResultsEv_forall (fun e => e.isThreadPost = false)
          (fun c ok => rfl) env.postOk _ _ ev h2
  · intro r hr ch hch
    rw [hred]
    apply List.mem_cons_of_mem
    show Ev.followUpPost ch false true
      ∈ (sendFollowUpEv
          ("📚 Processing " ++ toString titles.length ++ " book(s): "
            ++ String.intercalate ", " titles
            ++ "\n\n_Synopses will appear below as they complete..._") false env.postOk 0).1
        ++ genEvents env.gen titles
        ++ (sendBatchResultsEv env.postOk
          (sendFollowUpEv
            ("📚 Processing " ++ toString titles.length ++ " book(s): "
              ++ String.intercalate ", " titles
              ++ "\n\n_Synopses will appear below as they complete..._")
            false env.postOk 0).2
          (generateBatchSynopses env.gen titles)).1
    rw [List.mem_append]
    right
    exact sendBatchResultsEv_mem hpost _ _ r hr ch hch

/-- Witness for C8 at a concrete invocation: two titles, failed thread
creation, an always-accepting transport. -/
theorem processBatch_threadFallback_witness :
    ((∀ ev ∈ processBatchCmd "Dune, 1984" true
          ⟨fun t => Except.ok ("About " ++ t), none, fun _ => true, Except.ok []⟩,
        ev.isThreadPost = false)
      ∧ ∀ r ∈ generateBatchSynopses
            (fun t => Except.ok ("About " ++ t)) ["Dune", "1984"],
          ∀ ch ∈ splitContent r.content,
            Ev.followUpPost ch false true ∈ processBatchCmd "Dune, 1984" true
              ⟨fun t => Except.ok ("About " ++ t), none, fun _ => true, Except.ok []⟩) :=
  processBatch_threadFallback "Dune, 1984"
    ⟨fun t => Except.ok ("About " ++ t), none, fun _ => true, Except.ok []⟩
    ["Dune", "1984"] (by decide) (by decide) (by decide) rfl (fun _ => rfl)

/-! ## C9: a failed post halts one artifact only -/

/-- C9.  Failure isolation in `sendBatchResults`: the delivery trace
decomposes into exactly one block per artifact, in input order; every
artifact's block is non-empty (so a failure while posting one artifact never
prevents later artifacts from being attempted and delivered); and within one
artifact's block the posted chunks form a prefix of that artifact's chunk
sequence in which only the final post can be the failed one — after a failed
post, the artifact's remaining chunks are dropped. -/
theorem sendBatchResults_isolates_failures (results : List SynopsisResult)
    (postOk : Nat → Bool) (k : Nat) :
    ((sendBatchResultsEv postOk k results).1 = (batchBlocks postOk k results).flatten
        ∧ (batchBlocks postOk k results).length = results.length)
      ∧ (∀ b ∈ batchBlocks postOk k results, b ≠ [])
      ∧ ∀ p ∈ (batchBlocks postOk k results).zip results,
          (p.1.map Ev.chunkOf = (splitContent p.2.content).take p.1.length
            ∧ ∀ ev ∈ p.1.dropLast, ev.okOf = true) := by
  induction results generalizing k with
  | nil => exact ⟨⟨rfl, rfl⟩, by simp [batchBlocks], by simp [batchBlocks]⟩
  | cons r rs ih =>
    obtain ⟨⟨ihflat, ihlen⟩, ihne, ihpre⟩ := ih
      ((postChunks (fun c ok => Ev.followUpPost c false ok) postOk k
        (splitContent r.content)).2)
    refine ⟨⟨?_, ?_⟩, ?_, ?_⟩
    · show (postChunks (fun c ok => Ev.followUpPost c false ok) postOk k
            (splitContent r.content)).1
          ++ (sendBatchResultsEv postOk _ rs).1
        = ((postChunks (fun c ok => Ev.followUpPost c false ok) postOk k
            (splitContent r.content)).1 :: batchBlocks postOk _ rs).flatten
      rw [List.flatten_cons, ihflat]
    · show (_ :: batchBlocks postOk _ rs).length = (r :: rs).length
      rw [List.length_cons, List.length_cons, ihlen]
    · intro b hb
      rcases List.mem_cons.mp hb with h | h
      · subst h
        exact postChunks_ne_nil (splitContent_ne_nil r.content 1900) k
      · exact ihne b h
    · intro p hp
      have hp' : p ∈ ((postChunks (fun c ok => Ev.followUpPost c false ok) postOk k
            (splitContent r.content)).1, r)
          :: ((batchBlocks postOk _ rs).zip rs) := hp
      rcases List.mem_cons.mp hp' with h | h
      · subst h
        exact ⟨postChunks_chunks_take (fun c ok => Ev.followUpPost c false ok)
            (fun c ok => rfl) postOk _ k,
          postChunks_dropLast_ok (fun c ok => Ev.followUpPost c false ok)
            (fun c ok => rfl) postOk _ k⟩
      · exact ihpre p h

end Dewey
